import Mathlib

/-!
Verification of the moltis agent-runtime core.

This file gives a shallow embedding, in Lean, of the parts of the moltis
repository that the specification's claims are about:

* the tool-result sanitizer (`strip_base64_blobs`, `strip_hex_blobs`,
  `sanitize_tool_result` from `crates/agents/src/runner.rs`),
* the context-window classifier (`is_context_window_error`),
* the text-embedded tool-call parser (`parse_tool_call_from_text`),
* the agent loop (`run_agent_loop_with_context`),
* the sandbox router decision (`SandboxRouter::is_sandboxed` and the
  per-session overrides, from `crates/tools/src/sandbox.rs`),
* the failover sandbox wrapper (`FailoverSandbox`).

Strings are modelled as lists of Unicode characters (`Str`).  Rust strings
are always valid UTF-8, so a list of characters represents a Rust `String`
exactly; byte positions and byte lengths are recovered with the UTF-8 size
of each character (`charSize`, `utf8Len`).  All substring patterns searched
by the embedded code are ASCII, so character indices coincide with Rust's
byte indices at every position the code inspects.

Recursions that Rust expresses with `while` loops over shrinking slices are
expressed with an explicit fuel argument that starts at the length of the
input; every recursive call shrinks the string by at least one character,
so the fuel is never exhausted on the calls the top-level wrappers make.
This keeps every definition structurally recursive and hence fully
evaluable by `decide` and `rfl`.

External collaborators of the runner are modelled as function parameters:
`serde_json::from_str` (an external crate) as a `Str → Option Json`
parameter, `uuid::Uuid::new_v4` (nondeterministic) as a string parameter,
the loaded configuration value `max_tool_result_bytes` as a number, and an
LLM provider as the sequence of outcomes of its `complete` calls.
-/

namespace Moltis

/-- Strings modelled as lists of characters. -/
abbrev Str := List Char

/-- Convert a Lean string literal to the character-list model. -/
def chars (s : String) : Str := s.toList

/-- UTF-8 byte size of one character (1, 2, 3 or 4 bytes). -/
def charSize (c : Char) : Nat :=
  if c.toNat < 0x80 then 1
  else if c.toNat < 0x800 then 2
  else if c.toNat < 0x10000 then 3
  else 4

/-- UTF-8 byte length of a string, as Rust's `str::len` reports it. -/
def utf8Len (s : Str) : Nat := (s.map charSize).sum

/-- Rust `str::find`: position of the first occurrence of `pat` in `s`.
Rust returns a byte index; the model returns the character index, which
agrees with the byte index whenever the prefix before the occurrence is
ASCII, and is in any case used consistently with the character-level
`take`/`drop` below. -/
def findSub (s pat : Str) : Option Nat :=
  if pat.isPrefixOf s then some 0
  else
    match s with
    | [] => none
    | _ :: t => (findSub t pat).map (· + 1)

/-- Rust `str::contains`. -/
def hasSub (s pat : Str) : Bool := (findSub s pat).isSome

theorem findSub_some_decomp {s pat : Str} {i : Nat} (h : findSub s pat = some i) :
    s = s.take i ++ pat ++ s.drop (i + pat.length) := by
  induction s generalizing i with
  | nil =>
    unfold findSub at h
    split at h
    · rename_i hp
      simp only [Option.some.injEq] at h
      subst h
      have := List.isPrefixOf_iff_prefix.mp hp
      simpa using List.prefix_nil.mp this
    · simp at h
  | cons c t ih =>
    unfold findSub at h
    split at h
    · rename_i hp
      simp only [Option.some.injEq] at h
      subst h
      obtain ⟨u, hu⟩ := List.isPrefixOf_iff_prefix.mp hp
      conv_lhs => rw [← hu]
      simp [← hu]
    · match hfind : findSub t pat with
      | none => simp [hfind] at h
      | some j =>
        simp only [hfind, Option.map_some', Option.some.injEq] at h
        subst h
        have := ih hfind
        simp only [List.take_succ_cons, List.drop_succ_cons]
        conv_lhs => rw [this]
        simp [Nat.add_right_comm]

theorem findSub_some_le {s pat : Str} {i : Nat} (h : findSub s pat = some i) :
    i + pat.length ≤ s.length := by
  induction s generalizing i with
  | nil =>
    unfold findSub at h
    split at h
    · rename_i hp
      simp only [Option.some.injEq] at h
      subst h
      have := List.prefix_nil.mp (List.isPrefixOf_iff_prefix.mp hp)
      simp [this]
    · simp at h
  | cons c t ih =>
    unfold findSub at h
    split at h
    · rename_i hp
      simp only [Option.some.injEq] at h
      subst h
      simpa using (List.isPrefixOf_iff_prefix.mp hp).length_le
    · match hfind : findSub t pat with
      | none => simp [hfind] at h
      | some j =>
        simp only [hfind, Option.map_some', Option.some.injEq] at h
        subst h
        have := ih hfind
        simp only [List.length_cons]
        omega

/-- Unicode `White_Space` code points, the set recognised by Rust's
`char::is_whitespace`, which `str::trim` strips from both ends. -/
def rustIsWhitespace (c : Char) : Bool :=
  ([0x9, 0xA, 0xB, 0xC, 0xD, 0x20, 0x85, 0xA0, 0x1680,
    0x2000, 0x2001, 0x2002, 0x2003, 0x2004, 0x2005, 0x2006, 0x2007,
    0x2008, 0x2009, 0x200A, 0x2028, 0x2029, 0x202F, 0x205F, 0x3000] : List Nat).contains c.toNat

/-- Rust `str::trim`. -/
def rustTrim (s : Str) : Str :=
  ((s.dropWhile rustIsWhitespace).reverse.dropWhile rustIsWhitespace).reverse

/-- ASCII lowercasing of one character.  Rust's `str::to_lowercase` also
applies Unicode case mapping to non-ASCII letters; every pattern the
classifier searches for is ASCII, and the model lowercases exactly the
ASCII uppercase range. -/
def asciiToLower (c : Char) : Char :=
  if 'A' ≤ c ∧ c ≤ 'Z' then Char.ofNat (c.toNat + 32) else c

/-- Character-wise lowercasing, the model of `String::to_lowercase`. -/
def lowercase (s : Str) : Str := s.map asciiToLower

/-- Decimal digit character. -/
def digitChar (n : Nat) : Char := Char.ofNat (48 + n)

/-- Decimal rendering of a natural number, with fuel (`n + 1` is always
enough fuel, since the number of digits of `n` is at most `n + 1`). -/
def natToCharsAux : Nat → Nat → Str
  | 0, _ => []
  | fuel + 1, n =>
    if n < 10 then [digitChar n]
    else natToCharsAux fuel (n / 10) ++ [digitChar (n % 10)]

/-- Decimal rendering of a natural number, as Rust `format!` prints a
`usize`. -/
def natToChars (n : Nat) : Str := natToCharsAux (n + 1) n

/-- Model of `serde_json::Value`.  Objects are ordered association lists
(the runner only ever serializes objects it built itself, so the map
representation ordering is internal to the model and used consistently).
JSON numbers are modelled as integers; no claim depends on numeric
values. -/
inductive Json where
  | null
  | bool (b : Bool)
  | num (n : Int)
  | str (s : Str)
  | arr (xs : List Json)
  | obj (fields : List (Str × Json))

/-- Field lookup on a JSON object (`serde_json::Value::get` /
`Map::get`): `none` on non-objects and missing keys. -/
def getField (j : Json) (key : Str) : Option Json :=
  match j with
  | .obj fs => (fs.find? (fun p => p.1 == key)).map (·.2)
  | _ => none

/-- Field lookup returning the string payload, modelling
`value.get(key).and_then(|v| v.as_str())`. -/
def jsonGetStr (j : Json) (key : Str) : Option Str :=
  match getField j key with
  | some (.str s) => some s
  | _ => none

/-- Lowercase hexadecimal digit character. -/
def lowerHexDigitChar (n : Nat) : Char :=
  if n < 10 then Char.ofNat (48 + n) else Char.ofNat (87 + n)

/-- JSON string escaping of one character, as `serde_json` emits it. -/
def escapeJsonChar (c : Char) : Str :=
  if c = '"' then ['\\', '"']
  else if c = '\\' then ['\\', '\\']
  else if c = Char.ofNat 8 then ['\\', 'b']
  else if c = Char.ofNat 9 then ['\\', 't']
  else if c = Char.ofNat 10 then ['\\', 'n']
  else if c = Char.ofNat 12 then ['\\', 'f']
  else if c = Char.ofNat 13 then ['\\', 'r']
  else if c.toNat < 0x20 then
    ['\\', 'u', '0', '0', lowerHexDigitChar (c.toNat / 16), lowerHexDigitChar (c.toNat % 16)]
  else [c]

/-- Serialization of a JSON string literal, double quotes included. -/
def serializeJsonStr (s : Str) : Str :=
  '"' :: (s.map escapeJsonChar).flatten ++ ['"']

/-- Decimal rendering of an integer. -/
def intToChars (n : Int) : Str :=
  if n < 0 then '-' :: natToChars n.natAbs else natToChars n.toNat

/-- Join with commas, for array and object bodies. -/
def commaJoin : List Str → Str
  | [] => []
  | [x] => x
  | x :: y :: xs => x ++ ',' :: commaJoin (y :: xs)

/-- Compact serialization of a JSON value
(`serde_json::Value::to_string`). -/
def jsonSerialize : Json → Str
  | .null => chars "null"
  | .bool true => chars "true"
  | .bool false => chars "false"
  | .num n => intToChars n
  | .str s => serializeJsonStr s
  | .arr xs =>
    '[' :: commaJoin (xs.attach.map (fun x => jsonSerialize x.1)) ++ [']']
  | .obj fs =>
    Char.ofNat 123 ::
      commaJoin (fs.attach.map (fun p => serializeJsonStr p.1.1 ++ ':' :: jsonSerialize p.1.2))
        ++ [Char.ofNat 125]
decreasing_by
· simp_wf
  have := List.sizeOf_lt_of_mem x.2
  omega
· simp_wf
  rcases p with ⟨⟨k, v⟩, hp⟩
  have := List.sizeOf_lt_of_mem hp
  simp only [Prod.mk.sizeOf_spec] at this
  simp only []
  omega

/-- Tag that opens a base64 data URI (`BASE64_TAG` in runner.rs). -/
def BASE64_TAG : Str := chars "data:"

/-- Base64 alphabet test, as the byte scan in `strip_base64_blobs`
performs it (`is_ascii_alphanumeric || b'+' || b'/' || b'='`).  The Rust
code scans bytes; a multi-byte character begins with a byte outside the
ASCII range, so the byte scan and this character scan stop at the same
place and count the same number of (single-byte) characters. -/
def isBase64Char (c : Char) : Bool :=
  c.isAlphanum || c == '+' || c == '/' || c == '='

/-- Replacement marker for a stripped base64 data URI. -/
def base64RemovedMarker (n : Nat) : Str :=
  chars "[base64 data removed — " ++ natToChars n ++ chars " bytes]"

/-- Body of `strip_base64_blobs` (runner.rs).  The scan loop is expressed
with fuel; every recursive call strips at least five characters off the
front of the string, so fuel equal to the length of the input is always
enough.  The numeric literals mirror the source: 5 is the length of
`data:`, 8 the length of `;base64,`, 200 is `BASE64_MIN_LEN`. -/
def stripB64Go : Nat → Str → Str
  | 0, s => s
  | fuel + 1, s =>
    match findSub s BASE64_TAG with
    | none => s
    | some start =>
      let pre := s.take start
      let afterTag := s.drop (start + 5)
      match findSub afterTag (chars ";base64,") with
      | none => pre ++ BASE64_TAG ++ stripB64Go fuel afterTag
      | some mpos =>
        let payloadLen := ((afterTag.drop (mpos + 8)).takeWhile isBase64Char).length
        if 200 ≤ payloadLen then
          let totalUriLen := 5 + (mpos + 8) + payloadLen
          pre ++ base64RemovedMarker totalUriLen ++ stripB64Go fuel (s.drop (start + totalUriLen))
        else pre ++ BASE64_TAG ++ stripB64Go fuel afterTag

/-- Strip base64 data-URI blobs with payloads of 200 or more base64
characters (`strip_base64_blobs` in runner.rs). -/
def strip_base64_blobs (s : Str) : Str := stripB64Go s.length s

/-- ASCII hexadecimal digit test (`char::is_ascii_hexdigit`). -/
def isHexDigitChar (c : Char) : Bool :=
  ('0' ≤ c && c ≤ '9') || ('a' ≤ c && c ≤ 'f') || ('A' ≤ c && c ≤ 'F')

/-- Replacement marker for a stripped hex run. -/
def hexRemovedMarker (n : Nat) : Str :=
  chars "[hex data removed — " ++ natToChars n ++ chars " chars]"

/-- Body of `strip_hex_blobs` (runner.rs): replace every maximal run of
200 or more ASCII hex digits, copy shorter runs and other characters.
Rust measures the run in bytes; hex digits are ASCII, so the byte count
equals the character count. -/
def stripHexGo : Nat → Str → Str
  | 0, s => s
  | fuel + 1, s =>
    match s with
    | [] => []
    | c :: cs =>
      if isHexDigitChar c then
        let run := (c :: cs).takeWhile isHexDigitChar
        let rest := (c :: cs).dropWhile isHexDigitChar
        (if 200 ≤ run.length then hexRemovedMarker run.length else run) ++ stripHexGo fuel rest
      else c :: stripHexGo fuel cs

/-- Strip long hex runs (`strip_hex_blobs` in runner.rs). -/
def strip_hex_blobs (s : Str) : Str := stripHexGo s.length s

/-- Rust `String::is_char_boundary` for byte position `i` of `s`: true at
0, at the end, and between encoded characters; false inside a character
and beyond the end. -/
def isBoundaryB (s : Str) (i : Nat) : Bool :=
  if i = 0 then true
  else
    match s with
    | [] => false
    | c :: cs => if charSize c ≤ i then isBoundaryB cs (i - charSize c) else false

/-- Boundary search loop of `sanitize_tool_result`: starting at
`max_bytes`, decrement while the position is positive and not a char
boundary. -/
def findB (s : Str) : Nat → Nat
  | 0 => 0
  | e + 1 => if isBoundaryB s (e + 1) then e + 1 else findB s e

/-- Longest character prefix of `s` whose UTF-8 byte length is at most
`b`; at a char boundary `b` this is exactly `String::truncate(b)`. -/
def takeBytes : Str → Nat → Str
  | [], _ => []
  | c :: cs, b => if charSize c ≤ b then c :: takeBytes cs (b - charSize c) else []

/-- Truncation marker appended by `sanitize_tool_result`. -/
def truncMarker (originalLen : Nat) : Str :=
  chars "\n\n[truncated — " ++ natToChars originalLen ++ chars " bytes total]"

/-- Model of `sanitize_tool_result` (runner.rs): strip base64 blobs, then
hex runs, then truncate at a char boundary no greater than `max_bytes`
and append the truncation marker when the result exceeds `max_bytes`. -/
def sanitize_tool_result (input : Str) (maxBytes : Nat) : Str :=
  let r := strip_hex_blobs (strip_base64_blobs input)
  if maxBytes < utf8Len r then
    takeBytes r (findB r maxBytes) ++ truncMarker (utf8Len r)
  else r

/-- Fuelled test that every base64 data URI in `s` has a payload shorter
than 200 characters, following the scan structure of `stripB64Go`, so
that `strip_base64_blobs` is the identity exactly when this holds. -/
def b64ShortGo : Nat → Str → Bool
  | 0, _ => true
  | fuel + 1, s =>
    match findSub s BASE64_TAG with
    | none => true
    | some start =>
      let afterTag := s.drop (start + 5)
      match findSub afterTag (chars ";base64,") with
      | none => b64ShortGo fuel afterTag
      | some mpos =>
        decide (((afterTag.drop (mpos + 8)).takeWhile isBase64Char).length < 200)
          && b64ShortGo fuel afterTag

/-- Every base64 data-URI payload in `s` is shorter than 200 characters. -/
def b64Short (s : Str) : Bool := b64ShortGo s.length s

/-- Fuelled test that every maximal ASCII hex run in `s` is shorter than
200 characters, following the scan structure of `stripHexGo`. -/
def hexRunsShortGo : Nat → Str → Bool
  | 0, _ => true
  | fuel + 1, s =>
    match s with
    | [] => true
    | c :: cs =>
      if isHexDigitChar c then
        decide (((c :: cs).takeWhile isHexDigitChar).length < 200)
          && hexRunsShortGo fuel ((c :: cs).dropWhile isHexDigitChar)
      else hexRunsShortGo fuel cs

/-- Every maximal hex run in `s` is shorter than 200 characters. -/
def hexRunsShort (s : Str) : Bool := hexRunsShortGo s.length s

/-- Error patterns of the context-window classifier
(`CONTEXT_WINDOW_PATTERNS` in runner.rs). -/
def CONTEXT_WINDOW_PATTERNS : List Str :=
  [chars "context_length_exceeded", chars "max_tokens", chars "too many tokens",
   chars "request too large", chars "maximum context length", chars "context window",
   chars "token limit", chars "content_too_large", chars "request_too_large"]

/-- Model of `is_context_window_error` (runner.rs): lowercase the message
and look for any known pattern, plus the two HTTP 413 spellings. -/
def is_context_window_error (msg : Str) : Bool :=
  let lower := lowercase msg
  CONTEXT_WINDOW_PATTERNS.any (fun pattern => hasSub lower pattern)
    || hasSub lower (chars "status 413")
    || hasSub lower (chars "http 413")

/-- Token usage (`Usage` in model.rs); the counters are `u32` in Rust. -/
structure Usage where
  inputTokens : Nat
  outputTokens : Nat

/-- One requested tool invocation (`ToolCall` in model.rs). -/
structure ToolCall where
  id : Str
  name : Str
  arguments : Json

/-- Response of one `complete` call (`CompletionResponse` in model.rs). -/
structure CompletionResponse where
  text : Option Str
  toolCalls : List ToolCall
  usage : Usage

/-- Typed error of the agent loop (`AgentRunError` in runner.rs); the
`anyhow` payload of `Other` is modelled by its message. -/
inductive AgentRunError where
  | contextWindowExceeded (msg : Str)
  | other (msg : Str)

/-- Result of a clean agent-loop run (`AgentRunResult` in runner.rs). -/
structure AgentRunResult where
  text : Str
  iterations : Nat
  toolCallsMade : Nat
  usage : Usage

/-- Action returned by hook dispatch (`HookAction` in
`moltis_common::hooks`): continue unchanged, block with a reason, or
replace the payload. -/
inductive HookAction where
  | cont
  | block (reason : Str)
  | modifyPayload (v : Json)

/-- Hook payloads, one per event, with exactly the fields the runner
constructs at its dispatch sites in runner.rs. -/
inductive HookPayload where
  | beforeAgentStart (sessionKey model : Str)
  | messageSending (sessionKey content : Str)
  | messageSent (sessionKey content : Str)
  | beforeToolCall (sessionKey toolName : Str) (arguments : Json)
  | afterToolCall (sessionKey toolName : Str) (success : Bool) (result : Option Json)
  | toolResultPersist (sessionKey toolName : Str) (result : Json)
  | agentEnd (sessionKey text : Str) (iterations toolCalls : Nat)

/-- True exactly on `ToolResultPersist` payloads. -/
def isPersistPayload : HookPayload → Bool
  | .toolResultPersist _ _ _ => true
  | _ => false

/-- Environment of one `run_agent_loop_with_context` invocation.  The
provider is modelled by the outcome of each numbered `complete` call (the
runner also passes the message list and schemas; which call it is
determines the outcome in the model).  `dispatch` is the observable
behaviour of `HookRegistry::dispatch` and `dispatch_sync`
(`moltis_common` is outside the embedded sources and the runner only
consumes its aggregate result).  `parseJson` models `serde_json::from_str`
and `uuid` the generated v4 UUID of the iteration.  `maxToolResultBytes`
is the configuration value `tools.max_tool_result_bytes` loaded at
dispatch time. -/
structure LoopEnv where
  supportsTools : Bool
  providerId : Str
  complete : Nat → Except Str CompletionResponse
  dispatch : Option (HookPayload → Except Str HookAction)
  getTool : Str → Option (Json → Except Str Json)
  toolContext : Option Json
  parseJson : Str → Option Json
  uuid : Nat → Str
  maxToolResultBytes : Nat
  systemPrompt : Str
  userMessage : Str
  history : Option (List Json)

/-- Session key extracted for hook payloads:
`tool_context.get("_session_key").as_str().unwrap_or("")`. -/
def sessionKeyOf (env : LoopEnv) : Str :=
  match env.toolContext with
  | some ctx => (jsonGetStr ctx (chars "_session_key")).getD []
  | none => []

/-- Model of `parse_tool_call_from_text` (runner.rs).  `parseJson` stands
for `serde_json::from_str`, `uuid` for the generated UUID.  The numeric
literals mirror the source: 12 is the length of the opening fence
` ```tool_call `, 3 the length of the closing ` ``` `. -/
def parse_tool_call_from_text (parseJson : Str → Option Json) (uuid : Str)
    (text : Str) : Option (ToolCall × Option Str) :=
  match findSub text (chars "```tool_call") with
  | none => none
  | some start =>
    let rest := text.drop (start + 12)
    match findSub rest (chars "```") with
    | none => none
    | some e =>
      match parseJson (rustTrim (rest.take e)) with
      | none => none
      | some parsed =>
        match getField parsed (chars "tool") with
        | some (.str toolName) =>
          let arguments := (getField parsed (chars "arguments")).getD (.obj [])
          let before := rustTrim (text.take start)
          let after := rustTrim (text.drop (start + 12 + e + 3))
          let remaining : Option Str :=
            if before = [] ∧ after = [] then none
            else if before = [] then some after
            else if after = [] then some before
            else some (before ++ '\n' :: after)
          some (⟨chars "text-" ++ uuid, toolName, arguments⟩, remaining)
        | _ => none

/-- Saturating `u32` addition, as the loop accumulates usage. -/
def satAdd32 (a b : Nat) : Nat := min (a + b) (2 ^ 32 - 1)

/-- The maximum number of loop iterations (`MAX_ITERATIONS` in
runner.rs). -/
def MAX_ITERATIONS : Nat := 25

/-- Tool-role message appended to the conversation for one tool call. -/
def toolMsg (id content : Str) : Json :=
  .obj [(chars "role", .str (chars "tool")),
        (chars "tool_call_id", .str id),
        (chars "content", .str content)]

/-- Content of the tool message substituted when a `BeforeToolCall` hook
blocks the call: the serialization of an object with a single `error`
field reading `blocked by hook: <reason>`. -/
def blockedContent (reason : Str) : Str :=
  jsonSerialize (.obj [(chars "error", .str (chars "blocked by hook: " ++ reason))])

/-- Insert (or overwrite) a key in an object's field list, the model of
`serde_json::Map::insert`. -/
def insertKey : List (Str × Json) → Str → Json → List (Str × Json)
  | [], k, v => [(k, v)]
  | (k', v') :: rest, k, v =>
    if k' = k then (k', v) :: rest else (k', v') :: insertKey rest k v

/-- Shallow merge of the ambient tool context into the call arguments
(context wins), performed only when both are JSON objects, exactly as the
`if let` chain in runner.rs does. -/
def mergeContext (args : Json) (ctx : Option Json) : Json :=
  match args, ctx with
  | .obj fs, some (.obj cfs) => .obj (cfs.foldl (fun acc p => insertKey acc p.1 p.2) fs)
  | _, _ => args

/-- Execute one (non-blocked) tool call body: look the tool up, merge the
context into the arguments, run it, and build the JSON envelope
(`result` on success, `error` on failure or for an unknown tool).  Also
returns the `AfterToolCall` payload dispatched on the way (none for an
unknown tool, matching runner.rs). -/
def toolEnvelope (env : LoopEnv) (tc : ToolCall) (effArgs : Json) :
    Json × List HookPayload :=
  match env.getTool tc.name with
  | some ex =>
    match ex (mergeContext effArgs env.toolContext) with
    | .ok v =>
      (.obj [(chars "result", v)],
       [.afterToolCall (sessionKeyOf env) tc.name true (some v)])
    | .error e =>
      (.obj [(chars "error", .str e)],
       [.afterToolCall (sessionKeyOf env) tc.name false none])
  | none =>
    (.obj [(chars "error", .str (chars "unknown tool: " ++ tc.name))], [])

/-- Synchronous `ToolResultPersist` dispatch on an envelope:
`ModifyPayload` replaces it, `Block` substitutes a `result blocked`
error object, `Continue` and dispatch errors keep it. -/
def persistResult (env : LoopEnv) (tc : ToolCall) (envelope : Json) :
    Json × List HookPayload :=
  match env.dispatch with
  | none => (envelope, [])
  | some d =>
    let pp : HookPayload := .toolResultPersist (sessionKeyOf env) tc.name envelope
    match d pp with
    | .ok (.modifyPayload v) => (v, [pp])
    | .ok (.block r) =>
      (.obj [(chars "error", .str (chars "result blocked: " ++ r))], [pp])
    | _ => (envelope, [pp])

/-- Non-blocked tail of one tool call: run the tool, dispatch
`ToolResultPersist`, sanitize the serialized envelope, and append the
tool-role message.  The second component records the hook payloads
dispatched. -/
def finishToolCall (env : LoopEnv) (tc : ToolCall) (effArgs : Json)
    (trace0 : List HookPayload) : Json × List HookPayload :=
  (toolMsg tc.id
    (sanitize_tool_result
      (jsonSerialize (persistResult env tc (toolEnvelope env tc effArgs).1).1)
      env.maxToolResultBytes),
   trace0 ++ (toolEnvelope env tc effArgs).2
     ++ (persistResult env tc (toolEnvelope env tc effArgs).1).2)

/-- Processing of one tool call of an assistant response (the body of the
`for tc in &response.tool_calls` loop in runner.rs): dispatch
`BeforeToolCall` (block substitutes the blocked-by-hook message and skips
everything else; `ModifyPayload` replaces the arguments; dispatch errors
continue), then run the tool.  Returns the appended tool-role message and
the hook payloads dispatched for this call. -/
def processToolCall (env : LoopEnv) (tc : ToolCall) : Json × List HookPayload :=
  match env.dispatch with
  | none => finishToolCall env tc tc.arguments []
  | some d =>
    let bp : HookPayload := .beforeToolCall (sessionKeyOf env) tc.name tc.arguments
    match d bp with
    | .ok (.block reason) => (toolMsg tc.id (blockedContent reason), [bp])
    | .ok (.modifyPayload v) => finishToolCall env tc v [bp]
    | _ => finishToolCall env tc tc.arguments [bp]

/-- Tool-role messages appended for the calls of one assistant response,
in order. -/
def execToolCalls (env : LoopEnv) (calls : List ToolCall) : List Json :=
  calls.map (fun tc => (processToolCall env tc).1)

/-- JSON shape of one tool call inside the assistant message
(`id` / `type` / `function{name, arguments-as-string}`). -/
def toolCallJson (tc : ToolCall) : Json :=
  .obj [(chars "id", .str tc.id),
        (chars "type", .str (chars "function")),
        (chars "function",
          .obj [(chars "name", .str tc.name),
                (chars "arguments", .str (jsonSerialize tc.arguments))])]

/-- Assistant message carrying the tool calls and, when present, the
accompanying text (inserted as `content`, as runner.rs does). -/
def assistantMsgOf (resp : CompletionResponse) : Json :=
  let base := [(chars "role", .str (chars "assistant")),
               (chars "tool_calls", .arr (resp.toolCalls.map toolCallJson))]
  match resp.text with
  | some t => .obj (base ++ [(chars "content", .str t)])
  | none => .obj base

/-- Messages appended by one tool-executing iteration: the assistant
message followed by one tool-role message per call. -/
def iterationAppended (env : LoopEnv) (resp : CompletionResponse) : List Json :=
  assistantMsgOf resp :: execToolCalls env resp.toolCalls

/-- Text-embedded tool-call rescue step (runner.rs): for a non-native
provider whose response has no tool calls but has text, try to parse a
fenced `tool_call` block; on success replace the text with the remainder
and the (empty) call list with the single parsed call. -/
def rescueTextToolCall (env : LoopEnv) (iter : Nat) (resp : CompletionResponse) :
    CompletionResponse :=
  match env.supportsTools, resp.toolCalls, resp.text with
  | false, [], some t =>
    match parse_tool_call_from_text env.parseJson (env.uuid iter) t with
    | some (tc, remaining) => { resp with text := remaining, toolCalls := [tc] }
    | none => resp
  | _, _, _ => resp

/-- Content of the most recent user-role message, the `content` of the
`MessageSending` hook payload. -/
def lastUserContent (ms : List Json) : Str :=
  match ms.reverse.find? (fun m => jsonGetStr m (chars "role") == some (chars "user")) with
  | some m => (jsonGetStr m (chars "content")).getD []
  | none => []

/-- Reason of a `MessageSending` block, if the dispatch returns one
(`ModifyPayload` and dispatch errors are treated as continue here,
matching the runner). -/
def messageSendingBlock (env : LoopEnv) (ms : List Json) : Option Str :=
  match env.dispatch with
  | none => none
  | some d =>
    match d (.messageSending (sessionKeyOf env) (lastUserContent ms)) with
    | .ok (.block r) => some r
    | _ => none

/-- Reason of a `BeforeAgentStart` block, if the dispatch returns one. -/
def beforeAgentStartBlock (env : LoopEnv) : Option Str :=
  match env.dispatch with
  | none => none
  | some d =>
    match d (.beforeAgentStart (sessionKeyOf env) env.providerId) with
    | .ok (.block r) => some r
    | _ => none

/-- Outcome of the loop model: the returned result, the final message
list, and the number of `provider.complete` calls made. -/
structure LoopOutcome where
  result : Except AgentRunError AgentRunResult
  messages : List Json
  providerCalls : Nat

/-- One-per-iteration body of the agent loop (runner.rs lines 357-706),
as a fueled recursion.  Arguments after the fuel: message list,
`iterations` (before the increment at the top of the body),
`total_tool_calls`, the two usage accumulators, and the number of
provider calls made so far.  The runner has no explicit fuel — its cap
check makes iterations past `MAX_ITERATIONS + 1` unreachable, and the
model is only ever entered with fuel `MAX_ITERATIONS + 1`, so the
fuel-exhausted branch is dead (`loopIter_bound` below relies only on the
cap check, mirroring the source).  Read-only hook dispatches
(`MessageSent`, `AgentEnd`) and the runner-event callback have no effect
on the loop state and are not tracked here. -/
def loopIter (env : LoopEnv) :
    Nat → List Json → Nat → Nat → Nat → Nat → Nat → LoopOutcome
  | 0, ms, _, _, _, _, pc =>
    ⟨.error (.other (chars "agent loop model fuel exhausted")), ms, pc⟩
  | fuel + 1, ms, iterations, totalToolCalls, inTok, outTok, pc =>
    let iters := iterations + 1
    if MAX_ITERATIONS < iters then
      ⟨.error (.other (chars "agent loop exceeded max iterations")), ms, pc⟩
    else
      match messageSendingBlock env ms with
      | some r =>
        ⟨.error (.other (chars "message sending blocked by hook: " ++ r)), ms, pc⟩
      | none =>
        match env.complete (pc + 1) with
        | .error e =>
          ⟨.error (if is_context_window_error e then .contextWindowExceeded e
                   else .other e), ms, pc + 1⟩
        | .ok resp0 =>
          let inTok' := satAdd32 inTok resp0.usage.inputTokens
          let outTok' := satAdd32 outTok resp0.usage.outputTokens
          let resp := rescueTextToolCall env iters resp0
          match resp.toolCalls with
          | [] =>
            ⟨.ok ⟨resp.text.getD [], iters, totalToolCalls, ⟨inTok', outTok'⟩⟩,
             ms, pc + 1⟩
          | _ :: _ =>
            loopIter env fuel (ms ++ iterationAppended env resp) iters
              (totalToolCalls + resp.toolCalls.length) inTok' outTok' (pc + 1)

/-- Initial message list of a turn: system prompt, then the history (when
provided), then the current user message. -/
def initialMessages (env : LoopEnv) : List Json :=
  Json.obj [(chars "role", .str (chars "system")),
            (chars "content", .str env.systemPrompt)]
  :: (env.history.getD []
      ++ [Json.obj [(chars "role", .str (chars "user")),
                    (chars "content", .str env.userMessage)]])

/-- Model of `run_agent_loop_with_context`: dispatch `BeforeAgentStart`
(block fails the turn before any provider call), build the initial
message list and enter the loop. -/
def runLoop (env : LoopEnv) : LoopOutcome :=
  match beforeAgentStartBlock env with
  | some r =>
    ⟨.error (.other (chars "agent start blocked by hook: " ++ r)), [], 0⟩
  | none =>
    loopIter env (MAX_ITERATIONS + 1) (initialMessages env) 0 0 0 0 0

/-- Sandbox mode (`SandboxMode` in sandbox.rs). -/
inductive SandboxMode where
  | off
  | nonMain
  | all

/-- Sandbox scope (`SandboxScope` in sandbox.rs). -/
inductive SandboxScope where
  | session
  | agent
  | shared

/-- Sandbox identifier (`SandboxId` in sandbox.rs). -/
structure SandboxId where
  scope : SandboxScope
  key : Str

/-- Exec options (`ExecOpts` in exec.rs); the timeout is in
milliseconds. -/
structure ExecOpts where
  timeoutMs : Nat
  maxOutputBytes : Nat
  workingDir : Option Str
  env : List (Str × Str)

/-- Exec result (`ExecResult` in exec.rs). -/
structure ExecResult where
  stdout : Str
  stderr : Str
  exitCode : Int

/-- Result of `build_image` (`BuildImageResult` in sandbox.rs). -/
structure BuildImageResult where
  tag : Str
  built : Bool

/-- Observable state of `SandboxRouter` relevant to the sandbox decision:
the configured mode and the per-session override map (a `HashMap` under a
read-write lock in the source, modelled as a partial function). -/
structure RouterState where
  mode : SandboxMode
  overrides : Str → Option Bool

/-- Mode-derived default decision: `Off → false`, `All → true`,
`NonMain → key != "main"` (the fallthrough of
`SandboxRouter::is_sandboxed`). -/
def modeDefault (mode : SandboxMode) (k : Str) : Bool :=
  match mode with
  | .off => false
  | .all => true
  | .nonMain => !(k == chars "main")

/-- Model of `SandboxRouter::is_sandboxed`: per-session override first,
then the mode-derived default. -/
def is_sandboxed (st : RouterState) (k : Str) : Bool :=
  match st.overrides k with
  | some v => v
  | none => modeDefault st.mode k

/-- Model of `SandboxRouter::set_override`. -/
def set_override (st : RouterState) (k : Str) (v : Bool) : RouterState :=
  { st with overrides := fun k' => if k' = k then some v else st.overrides k' }

/-- Model of `SandboxRouter::remove_override`. -/
def remove_override (st : RouterState) (k : Str) : RouterState :=
  { st with overrides := fun k' => if k' = k then none else st.overrides k' }

/-- A sandbox backend behind the `Sandbox` trait, modelled by the outcome
of each operation (errors carried as their rendered message, as the
failover wrapper only inspects `format!("{error:#}")`). -/
structure Backend where
  backendName : Str
  ensureReady : SandboxId → Option Str → Except Str Unit
  exec : SandboxId → Str → ExecOpts → Except Str ExecResult
  cleanup : SandboxId → Except Str Unit
  buildImage : Str → List Str → Except Str (Option BuildImageResult)

/-- Service-connection error test (sandbox.rs). -/
def is_apple_container_service_error (s : Str) : Bool :=
  hasSub s (chars "XPC connection error") || hasSub s (chars "Connection invalid")

/-- Already-exists error test (sandbox.rs). -/
def is_apple_container_exists_error (s : Str) : Bool :=
  hasSub s (chars "already exists") || hasSub s (chars "exists: \"container with id")

/-- Corruption predicate of the failover wrapper (sandbox.rs). -/
def is_apple_container_corruption_error (s : Str) : Bool :=
  is_apple_container_service_error s
    || is_apple_container_exists_error s
    || hasSub s (chars "cannot exec: container is not running")
    || hasSub s (chars "failed to bootstrap container")
    || hasSub s (chars "config.json")

/-- The two backends held by a `FailoverSandbox`; `primary_name` and
`fallback_name` are captured from the backends at construction. -/
structure FailoverSandbox where
  primary : Backend
  fallback : Backend

/-- Model of `FailoverSandbox::should_failover`: only an apple-container
primary fails over, and only on corruption-class errors. -/
def shouldFailover (fs : FailoverSandbox) (e : Str) : Bool :=
  fs.primary.backendName == chars "apple-container"
    && is_apple_container_corruption_error e

/-- Combined error message of a failed `ensure_ready` failover. -/
def failoverEnsureMsg (fs : FailoverSandbox) (pe fe : Str) : Str :=
  chars "primary sandbox backend (" ++ fs.primary.backendName
    ++ chars ") failed: " ++ pe
    ++ chars "; fallback backend (" ++ fs.fallback.backendName
    ++ chars ") also failed: " ++ fe

/-- Combined error message of a failed `exec` failover initialization. -/
def failoverExecMsg (fs : FailoverSandbox) (pe fe : Str) : Str :=
  chars "primary sandbox backend (" ++ fs.primary.backendName
    ++ chars ") failed during exec: " ++ pe
    ++ chars "; fallback backend (" ++ fs.fallback.backendName
    ++ chars ") failed to initialize: " ++ fe

/-- Model of `FailoverSandbox::ensure_ready`: result plus the new
`use_fallback` flag. -/
def failover_ensure_ready (fs : FailoverSandbox) (useFallback : Bool)
    (id : SandboxId) (img : Option Str) : Except Str Unit × Bool :=
  if useFallback then (fs.fallback.ensureReady id img, true)
  else
    match fs.primary.ensureReady id img with
    | .ok _ => (.ok (), false)
    | .error pe =>
      if shouldFailover fs pe then
        match fs.fallback.ensureReady id img with
        | .ok _ => (.ok (), true)
        | .error fe => (.error (failoverEnsureMsg fs pe fe), true)
      else (.error pe, false)

/-- Model of `FailoverSandbox::exec`: after a corruption-class primary
error the wrapper switches, readies the fallback, and retries the exec on
the fallback. -/
def failover_exec (fs : FailoverSandbox) (useFallback : Bool) (id : SandboxId)
    (cmd : Str) (opts : ExecOpts) : Except Str ExecResult × Bool :=
  if useFallback then (fs.fallback.exec id cmd opts, true)
  else
    match fs.primary.exec id cmd opts with
    | .ok r => (.ok r, false)
    | .error pe =>
      if shouldFailover fs pe then
        match fs.fallback.ensureReady id none with
        | .error fe => (.error (failoverExecMsg fs pe fe), true)
        | .ok _ => (fs.fallback.exec id cmd opts, true)
      else (.error pe, false)

/-- Model of `FailoverSandbox::cleanup`.  With the flag set the source
also best-effort cleans the primary and only logs its failure; the
returned result is the fallback's, which is what the model records. -/
def failover_cleanup (fs : FailoverSandbox) (useFallback : Bool)
    (id : SandboxId) : Except Str Unit × Bool :=
  if useFallback then (fs.fallback.cleanup id, true)
  else (fs.primary.cleanup id, false)

/-- Model of `FailoverSandbox::build_image`. -/
def failover_build_image (fs : FailoverSandbox) (useFallback : Bool)
    (base : Str) (packages : List Str) :
    Except Str (Option BuildImageResult) × Bool :=
  if useFallback then (fs.fallback.buildImage base packages, true)
  else
    match fs.primary.buildImage base packages with
    | .ok r => (.ok r, false)
    | .error pe =>
      if shouldFailover fs pe then (fs.fallback.buildImage base packages, true)
      else (.error pe, false)

/-- One of the four wrapper operations, for statements quantifying over
the whole capability set. -/
inductive SandboxOpCall where
  | ensureReady (id : SandboxId) (img : Option Str)
  | exec (id : SandboxId) (cmd : Str) (opts : ExecOpts)
  | cleanup (id : SandboxId)
  | buildImage (base : Str) (packages : List Str)

/-- Evolution of the `use_fallback` flag across one wrapper operation. -/
def failoverStepFlag (fs : FailoverSandbox) (st : Bool) : SandboxOpCall → Bool
  | .ensureReady id img => (failover_ensure_ready fs st id img).2
  | .exec id cmd opts => (failover_exec fs st id cmd opts).2
  | .cleanup id => (failover_cleanup fs st id).2
  | .buildImage base pkgs => (failover_build_image fs st base pkgs).2

/-- Evolution of the flag across a sequence of wrapper operations. -/
def failoverRunFlag (fs : FailoverSandbox) (ops : List SandboxOpCall) (st : Bool) : Bool :=
  ops.foldl (failoverStepFlag fs) st

theorem failoverStepFlag_of_true (fs : FailoverSandbox) (op : SandboxOpCall) :
    failoverStepFlag fs true op = true := by
  cases op <;>
    simp [failoverStepFlag, failover_ensure_ready, failover_exec,
      failover_cleanup, failover_build_image]

theorem failoverRunFlag_of_true (fs : FailoverSandbox) (ops : List SandboxOpCall) :
    failoverRunFlag fs ops true = true := by
  induction ops with
  | nil => rfl
  | cons op ops ih =>
    simp only [failoverRunFlag, List.foldl_cons, failoverStepFlag_of_true]
    exact ih

theorem failoverStepFlag_apple (fs : FailoverSandbox) (op : SandboxOpCall)
    (h : failoverStepFlag fs false op = true) :
    fs.primary.backendName = chars "apple-container" := by
  have ofShould : ∀ e, shouldFailover fs e = true →
      fs.primary.backendName = chars "apple-container" := by
    intro e he
    have := (Bool.and_eq_true _ _).mp he |>.1
    exact eq_of_beq this
  cases op with
  | ensureReady id img =>
    simp only [failoverStepFlag, failover_ensure_ready, if_neg Bool.false_ne_true] at h
    split at h
    · simp at h
    · split at h
      · rename_i he
        exact ofShould _ he
      · simp at h
  | exec id cmd opts =>
    simp only [failoverStepFlag, failover_exec, if_neg Bool.false_ne_true] at h
    split at h
    · simp at h
    · split at h
      · rename_i he
        exact ofShould _ he
      · simp at h
  | cleanup id =>
    simp [failoverStepFlag, failover_cleanup] at h
  | buildImage base pkgs =>
    simp only [failoverStepFlag, failover_build_image, if_neg Bool.false_ne_true] at h
    split at h
    · simp at h
    · split at h
      · rename_i he
        exact ofShould _ he
      · simp at h

/-- Claim C9 — once the failover wrapper's `use_fallback` flag is set by a
corruption-class primary error, it is never reset: with the flag set,
every `ensure_ready`, `exec`, `cleanup` and `build_image` is answered by
the fallback backend and the flag stays set (also across any sequence of
operations); the flag is only ever set when the primary backend is the
apple-container runtime; `cleanup` never changes the flag; and the
operation during which the switch happens is retried on the fallback. -/
theorem failover_fallback_permanent :
    ∀ (fs : FailoverSandbox) (id : SandboxId) (img : Option Str) (cmd : Str)
      (opts : ExecOpts) (base : Str) (pkgs : List Str) (st : Bool),
      failover_ensure_ready fs true id img = (fs.fallback.ensureReady id img, true) ∧
      failover_exec fs true id cmd opts = (fs.fallback.exec id cmd opts, true) ∧
      failover_cleanup fs true id = (fs.fallback.cleanup id, true) ∧
      failover_build_image fs true base pkgs = (fs.fallback.buildImage base pkgs, true) ∧
      (∀ op : SandboxOpCall, failoverStepFlag fs true op = true) ∧
      (∀ ops : List SandboxOpCall, failoverRunFlag fs ops true = true) ∧
      (∀ op : SandboxOpCall, failoverStepFlag fs false op = true →
        fs.primary.backendName = chars "apple-container") ∧
      (failover_cleanup fs st id).2 = st ∧
      (∀ pe, fs.primary.ensureReady id img = .error pe → shouldFailover fs pe = true →
        failover_ensure_ready fs false id img =
          ((match fs.fallback.ensureReady id img with
            | .ok _ => .ok ()
            | .error fe => .error (failoverEnsureMsg fs pe fe)), true)) ∧
      (∀ pe, fs.primary.exec id cmd opts = .error pe → shouldFailover fs pe = true →
        failover_exec fs false id cmd opts =
          ((match fs.fallback.ensureReady id none with
            | .error fe => .error (failoverExecMsg fs pe fe)
            | .ok _ => fs.fallback.exec id cmd opts), true)) := by
  intro fs id img cmd opts base pkgs st
  refine ⟨by simp [failover_ensure_ready], by simp [failover_exec],
    by simp [failover_cleanup], by simp [failover_build_image],
    failoverStepFlag_of_true fs, failoverRunFlag_of_true fs,
    fun op => failoverStepFlag_apple fs op, by cases st <;> simp [failover_cleanup],
    ?_, ?_⟩
  · intro pe hpe hsf
    simp only [failover_ensure_ready, if_neg Bool.false_ne_true, hpe, hsf, if_pos]
    split <;> simp
  · intro pe hpe hsf
    simp only [failover_exec, if_neg Bool.false_ne_true, hpe, hsf, if_pos]
    split <;> simp

/-- Concrete failover wrapper used by the witness: an apple-container
primary whose operations fail with a corruption-class message, and a
healthy docker fallback. -/
def failoverWitnessPair : FailoverSandbox where
  primary :=
    { backendName := chars "apple-container"
      ensureReady := fun _ _ => .error (chars "missing config.json")
      exec := fun _ _ _ => .error (chars "cannot exec: container is not running")
      cleanup := fun _ => .ok ()
      buildImage := fun _ _ => .ok none }
  fallback :=
    { backendName := chars "docker"
      ensureReady := fun _ _ => .ok ()
      exec := fun _ _ _ => .ok ⟨chars "ok", [], 0⟩
      cleanup := fun _ => .ok ()
      buildImage := fun _ _ => .ok none }

/-- Concrete sandbox id and exec options for the witness. -/
def witnessSandboxId : SandboxId := ⟨.session, chars "main"⟩

/-- Default exec options of the witness. -/
def witnessExecOpts : ExecOpts := ⟨30000, 200 * 1024, none, []⟩

theorem failover_fallback_permanent_witness :
    failover_ensure_ready failoverWitnessPair true witnessSandboxId none
      = (failoverWitnessPair.fallback.ensureReady witnessSandboxId none, true) ∧
    failover_ensure_ready failoverWitnessPair false witnessSandboxId none
      = ((match failoverWitnessPair.fallback.ensureReady witnessSandboxId none with
          | .ok _ => Except.ok ()
          | .error fe =>
            Except.error (failoverEnsureMsg failoverWitnessPair (chars "missing config.json") fe)),
         true) ∧
    failoverRunFlag failoverWitnessPair
      [.cleanup witnessSandboxId, .exec witnessSandboxId (chars "ls") witnessExecOpts] true = true := by
  have h := failover_fallback_permanent failoverWitnessPair witnessSandboxId none
    (chars "ls") witnessExecOpts (chars "ubuntu") [] false
  refine ⟨h.1, ?_, h.2.2.2.2.2.1 _⟩
  exact h.2.2.2.2.2.2.2.2.1 (chars "missing config.json") rfl (by decide)

theorem rescue_of_ne_nil (env : LoopEnv) (k : Nat) (resp : CompletionResponse)
    (h : resp.toolCalls ≠ []) : rescueTextToolCall env k resp = resp := by
  unfold rescueTextToolCall
  cases hc : resp.toolCalls with
  | nil => exact absurd hc h
  | cons x xs =>
    cases env.supportsTools <;> cases resp.text <;> simp [hc]

theorem loopIter_bound (fuel : Nat) :
    ∀ (env : LoopEnv) (ms : List Json) (it ttc a b pc : Nat),
      pc = it → it + fuel = MAX_ITERATIONS + 1 → it ≤ MAX_ITERATIONS →
      (loopIter env fuel ms it ttc a b pc).providerCalls ≤ MAX_ITERATIONS ∧
      (∀ res, (loopIter env fuel ms it ttc a b pc).result = .ok res →
        res.iterations ≤ MAX_ITERATIONS) := by
  induction fuel with
  | zero =>
    intro env ms it ttc a b pc hpc hsum hle
    omega
  | succ fuel ih =>
    intro env ms it ttc a b pc hpc hsum hle
    simp only [loopIter]
    split
    · exact ⟨by simpa using by omega, by intro res h; simp at h⟩
    · rename_i hcap
      split
      · exact ⟨by simpa using by omega, by intro res h; simp at h⟩
      · split
        · exact ⟨by simpa using by omega, by intro res h; simp at h⟩
        · split
          · refine ⟨by simpa using by omega, ?_⟩
            intro res h
            simp only [Except.ok.injEq] at h
            rw [← h]
            show it + 1 ≤ MAX_ITERATIONS
            omega
          · exact ih env _ (it + 1) _ _ _ (pc + 1) (by omega) (by omega) (by omega)

theorem loopIter_cap (fuel : Nat) :
    ∀ (env : LoopEnv) (ms : List Json) (it ttc a b pc : Nat),
      env.dispatch = none →
      (∀ n, n ≤ MAX_ITERATIONS → ∃ resp, env.complete n = .ok resp ∧ resp.toolCalls ≠ []) →
      pc = it → it + fuel = MAX_ITERATIONS + 1 → it ≤ MAX_ITERATIONS →
      (loopIter env fuel ms it ttc a b pc).result
          = .error (.other (chars "agent loop exceeded max iterations")) ∧
      (loopIter env fuel ms it ttc a b pc).providerCalls = MAX_ITERATIONS := by
  induction fuel with
  | zero =>
    intro env ms it ttc a b pc _ _ hpc hsum hle
    omega
  | succ fuel ih =>
    intro env ms it ttc a b pc hd hprov hpc hsum hle
    have hmsb : messageSendingBlock env ms = none := by
      simp [messageSendingBlock, hd]
    simp only [loopIter, hmsb]
    split
    · rename_i hcap
      constructor
      · rfl
      · simp only []
        omega
    · rename_i hcap
      obtain ⟨resp, hcr, hne⟩ := hprov (pc + 1) (by omega)
      simp only [hcr, rescue_of_ne_nil env (it + 1) resp hne]
      cases hc : resp.toolCalls with
      | nil => exact absurd hc hne
      | cons x xs =>
        simp only [hc]
        exact ih env _ (it + 1) _ _ _ (pc + 1) hd hprov (by omega) (by omega) (by omega)

/-- Claim C1 — the loop makes at most 25 provider calls in any run, every
successful `AgentRunResult` reports at most 25 iterations, and when the
provider keeps requesting tool calls the run fails with
`Other("agent loop exceeded max iterations")` after exactly 25 provider
calls (the cap check fires before a 26th call). -/
theorem agent_loop_iterations_bounded :
    ∀ env : LoopEnv,
      (runLoop env).providerCalls ≤ MAX_ITERATIONS ∧
      (∀ res, (runLoop env).result = .ok res → res.iterations ≤ MAX_ITERATIONS) ∧
      (env.dispatch = none →
        (∀ n, n ≤ MAX_ITERATIONS →
          ∃ resp, env.complete n = .ok resp ∧ resp.toolCalls ≠ []) →
        (runLoop env).result = .error (.other (chars "agent loop exceeded max iterations")) ∧
        (runLoop env).providerCalls = MAX_ITERATIONS) := by
  intro env
  unfold runLoop
  cases hb : beforeAgentStartBlock env with
  | some r =>
    refine ⟨by simp, by intro res h; simp at h, ?_⟩
    intro hd _
    rw [beforeAgentStartBlock, hd] at hb
    simp at hb
  | none =>
    have h1 := loopIter_bound (MAX_ITERATIONS + 1) env (initialMessages env) 0 0 0 0 0
      rfl (by omega) (by omega)
    refine ⟨h1.1, h1.2, ?_⟩
    intro hd hprov
    exact loopIter_cap (MAX_ITERATIONS + 1) env (initialMessages env) 0 0 0 0 0
      hd hprov rfl (by omega) (by omega)

/-- Concrete environment whose provider always requests one more tool
call, driving the loop into its iteration cap. -/
def envAlwaysToolCall : LoopEnv where
  supportsTools := true
  providerId := chars "mock-model"
  complete := fun _ =>
    .ok ⟨none, [⟨chars "c1", chars "t", .null⟩], ⟨1, 1⟩⟩
  dispatch := none
  getTool := fun _ => none
  toolContext := none
  parseJson := fun _ => none
  uuid := fun _ => []
  maxToolResultBytes := 1000
  systemPrompt := chars "sys"
  userMessage := chars "go"
  history := none

theorem agent_loop_iterations_bounded_witness :
    (runLoop envAlwaysToolCall).result
        = .error (.other (chars "agent loop exceeded max iterations")) ∧
    (runLoop envAlwaysToolCall).providerCalls = MAX_ITERATIONS := by
  refine (agent_loop_iterations_bounded envAlwaysToolCall).2.2 rfl ?_
  intro n _
  exact ⟨⟨none, [⟨chars "c1", chars "t", .null⟩], ⟨1, 1⟩⟩, rfl, by simp⟩

theorem processToolCall_fst (env : LoopEnv) (tc : ToolCall) :
    ∃ content, (processToolCall env tc).1 = toolMsg tc.id content := by
  unfold processToolCall finishToolCall
  cases env.dispatch with
  | none => exact ⟨_, rfl⟩
  | some d =>
    simp only []
    split
    · exact ⟨_, rfl⟩
    · exact ⟨_, rfl⟩
    · exact ⟨_, rfl⟩

theorem jsonGetStr_toolMsg_id (i c : Str) :
    jsonGetStr (toolMsg i c) (chars "tool_call_id") = some i := by
  rfl

theorem jsonGetStr_toolMsg_role (i c : Str) :
    jsonGetStr (toolMsg i c) (chars "role") = some (chars "tool") := by
  rfl

theorem execToolCalls_ids (env : LoopEnv) (calls : List ToolCall) :
    (execToolCalls env calls).map (fun m => jsonGetStr m (chars "tool_call_id"))
      = calls.map (fun c => some c.id) := by
  induction calls with
  | nil => rfl
  | cons tc rest ih =>
    obtain ⟨content, hc⟩ := processToolCall_fst env tc
    simp only [execToolCalls, List.map_cons, List.map_map] at ih ⊢
    rw [hc]
    simp only [jsonGetStr_toolMsg_id, List.cons.injEq]
    exact ⟨trivial, by simpa [Function.comp] using ih⟩

theorem execToolCalls_roles (env : LoopEnv) (calls : List ToolCall) :
    (execToolCalls env calls).map (fun m => jsonGetStr m (chars "role"))
      = calls.map (fun _ => some (chars "tool")) := by
  induction calls with
  | nil => rfl
  | cons tc rest ih =>
    obtain ⟨content, hc⟩ := processToolCall_fst env tc
    simp only [execToolCalls, List.map_cons, List.map_map] at ih ⊢
    rw [hc]
    simp only [jsonGetStr_toolMsg_role, List.cons.injEq]
    exact ⟨trivial, by simpa [Function.comp] using ih⟩

theorem countP_eq_one_of_nodup (l : List Str) (a : Str)
    (hn : l.Nodup) (ha : a ∈ l) :
    l.countP (fun x => decide (x = a)) = 1 := by
  induction l with
  | nil => simp at ha
  | cons b t ih =>
    rw [List.countP_cons]
    rcases List.mem_cons.mp ha with hab | hat
    · subst hab
      have hnotin : a ∉ t := (List.nodup_cons.mp hn).1
      have hz : t.countP (fun x => decide (x = a)) = 0 := by
        rw [List.countP_eq_zero]
        intro x hx
        simp only [decide_eq_true_eq]
        exact fun hxa => hnotin (hxa ▸ hx)
      simp [hz]
    · have hne : b ≠ a := by
        intro hba
        exact (List.nodup_cons.mp hn).1 (hba ▸ hat)
      rw [ih (List.nodup_cons.mp hn).2 hat]
      simp [hne]

/-- Claim C2 — the messages a tool-executing iteration appends are the
assistant message followed by exactly one tool-role message per tool
call, in order: the appended block is `assistant :: toolMsgs`, the tool
messages all carry role `tool`, their `tool_call_id` fields equal the
calls' ids in order (whatever the per-call outcome was), and — when the
ids of the assistant message's calls are distinct, as provider-issued ids
are — each id occurs exactly once before the next assistant message. -/
theorem assistant_tool_messages_correspond :
    ∀ (env : LoopEnv) (resp : CompletionResponse),
      iterationAppended env resp = assistantMsgOf resp :: execToolCalls env resp.toolCalls ∧
      (execToolCalls env resp.toolCalls).length = resp.toolCalls.length ∧
      (execToolCalls env resp.toolCalls).map (fun m => jsonGetStr m (chars "role"))
        = resp.toolCalls.map (fun _ => some (chars "tool")) ∧
      (execToolCalls env resp.toolCalls).map (fun m => jsonGetStr m (chars "tool_call_id"))
        = resp.toolCalls.map (fun c => some c.id) ∧
      ((resp.toolCalls.map ToolCall.id).Nodup → ∀ c ∈ resp.toolCalls,
        (execToolCalls env resp.toolCalls).countP
          (fun m => decide (jsonGetStr m (chars "tool_call_id") = some c.id)) = 1) := by
  intro env resp
  refine ⟨rfl, by simp [execToolCalls], execToolCalls_roles env _,
    execToolCalls_ids env _, ?_⟩
  intro hnodup c hc
  have hmap := execToolCalls_ids env resp.toolCalls
  have step1 :
      (execToolCalls env resp.toolCalls).countP
          (fun m => decide (jsonGetStr m (chars "tool_call_id") = some c.id))
        = ((execToolCalls env resp.toolCalls).map
            (fun m => jsonGetStr m (chars "tool_call_id"))).countP
            (fun o => decide (o = some c.id)) := by
    rw [List.countP_map]
    rfl
  rw [step1, hmap, List.countP_map]
  have step2 :
      resp.toolCalls.countP
          ((fun o => decide (o = some c.id)) ∘ fun c' => some c'.id)
        = (resp.toolCalls.map ToolCall.id).countP (fun i => decide (i = c.id)) := by
    rw [List.countP_map]
    apply List.countP_congr
    intro x _
    simp [Function.comp]
  rw [step2]
  exact countP_eq_one_of_nodup _ _ hnodup (List.mem_map_of_mem ToolCall.id hc)

/-- Concrete environment with one echo-like tool and a hook registry that
continues every dispatch. -/
def envTwoCalls : LoopEnv where
  supportsTools := true
  providerId := chars "mock-model"
  complete := fun _ => .ok ⟨none, [], ⟨0, 0⟩⟩
  dispatch := some (fun _ => .ok .cont)
  getTool := fun n => if n = chars "echo_tool" then some (fun a => .ok a) else none
  toolContext := some (.obj [(chars "_session_key", .str (chars "main"))])
  parseJson := fun _ => none
  uuid := fun _ => []
  maxToolResultBytes := 1000
  systemPrompt := chars "sys"
  userMessage := chars "go"
  history := none

/-- Concrete assistant response with two tool calls: one known tool, one
unknown. -/
def respTwoCalls : CompletionResponse where
  text := some (chars "working")
  toolCalls :=
    [⟨chars "call-1", chars "echo_tool", .obj [(chars "text", .str (chars "hi"))]⟩,
     ⟨chars "call-2", chars "nope", .null⟩]
  usage := ⟨1, 1⟩

theorem assistant_tool_messages_correspond_witness :
    (execToolCalls envTwoCalls respTwoCalls.toolCalls).map
        (fun m => jsonGetStr m (chars "tool_call_id"))
      = [some (chars "call-1"), some (chars "call-2")] ∧
    (execToolCalls envTwoCalls respTwoCalls.toolCalls).countP
        (fun m => decide (jsonGetStr m (chars "tool_call_id") = some (chars "call-1"))) = 1 := by
  have h := assistant_tool_messages_correspond envTwoCalls respTwoCalls
  refine ⟨h.2.2.2.1, ?_⟩
  exact h.2.2.2.2 (by decide)
    ⟨chars "call-1", chars "echo_tool", .obj [(chars "text", .str (chars "hi"))]⟩
    (by simp [respTwoCalls])

theorem rescue_of_native (env : LoopEnv) (k : Nat) (resp : CompletionResponse)
    (h : env.supportsTools = true) : rescueTextToolCall env k resp = resp := by
  unfold rescueTextToolCall
  rw [h]

theorem loopIter_tool_block_continues (fuel : Nat) (env : LoopEnv)
    (d : HookPayload → Except Str HookAction) (resp1 resp2 : CompletionResponse)
    (t2 : Str) (ms : List Json) (it ttc a b pc : Nat)
    (hd : env.dispatch = some d)
    (hnat : env.supportsTools = true)
    (hmsg : ∀ sk c, d (.messageSending sk c) = .ok .cont)
    (hc1 : env.complete (pc + 1) = .ok resp1) (hne1 : resp1.toolCalls ≠ [])
    (hc2 : env.complete (pc + 2) = .ok resp2) (hcalls2 : resp2.toolCalls = [])
    (htext2 : resp2.text = some t2)
    (hcap : it + 2 ≤ MAX_ITERATIONS) :
    (loopIter env (fuel + 1 + 1) ms it ttc a b pc).result =
      .ok ⟨t2, it + 1 + 1, ttc + resp1.toolCalls.length,
           ⟨satAdd32 (satAdd32 a resp1.usage.inputTokens) resp2.usage.inputTokens,
            satAdd32 (satAdd32 b resp1.usage.outputTokens) resp2.usage.outputTokens⟩⟩ := by
  have hmsb : ∀ ms' : List Json, messageSendingBlock env ms' = none := by
    intro ms'
    simp [messageSendingBlock, hd, hmsg]
  have hpc2 : pc + 1 + 1 = pc + 2 := by omega
  simp only [loopIter, hmsb, hc1, rescue_of_ne_nil env (it + 1) resp1 hne1]
  rw [if_neg (by omega : ¬ MAX_ITERATIONS < it + 1)]
  cases hcalls1 : resp1.toolCalls with
  | nil => exact absurd hcalls1 hne1
  | cons x xs =>
    simp only [loopIter, hmsb, hpc2, hc2, rescue_of_native env (it + 1 + 1) resp2 hnat,
      hcalls2, htext2]
    rw [if_neg (by omega : ¬ MAX_ITERATIONS < it + 1 + 1)]
    simp [← hcalls1]

/-- Claim C5 — hook `Block` is event-specific: a `BeforeAgentStart` block
fails the whole turn with `Other("agent start blocked by hook: <reason>")`
before any provider call (zero provider calls, no messages built), while a
`BeforeToolCall` block does not fail the turn: it substitutes a tool-role
message whose content is the serialized object with the single field
`error` reading `blocked by hook: <reason>` for that one call, and the
remaining calls are still processed (one appended tool message per call).
The last conjunct shows turn survival end to end: whatever the dispatch
answers for `BeforeToolCall` and `ToolResultPersist` — including blocking
every call — a turn whose provider requests tools once and then answers
with text completes with `Ok` after two iterations. -/
theorem hook_block_event_semantics :
    (∀ (env : LoopEnv) (d : HookPayload → Except Str HookAction) (r : Str),
      env.dispatch = some d →
      d (.beforeAgentStart (sessionKeyOf env) env.providerId) = .ok (.block r) →
      runLoop env = ⟨.error (.other (chars "agent start blocked by hook: " ++ r)), [], 0⟩) ∧
    (∀ (env : LoopEnv) (d : HookPayload → Except Str HookAction) (tc : ToolCall) (r : Str),
      env.dispatch = some d →
      d (.beforeToolCall (sessionKeyOf env) tc.name tc.arguments) = .ok (.block r) →
      processToolCall env tc =
        (toolMsg tc.id (blockedContent r),
         [.beforeToolCall (sessionKeyOf env) tc.name tc.arguments])) ∧
    (∀ (env : LoopEnv) (calls : List ToolCall),
      (execToolCalls env calls).length = calls.length) ∧
    (∀ (env : LoopEnv) (d : HookPayload → Except Str HookAction)
        (resp1 resp2 : CompletionResponse) (t2 : Str),
      env.dispatch = some d → env.supportsTools = true →
      (∀ sk mdl, d (.beforeAgentStart sk mdl) = .ok .cont) →
      (∀ sk c, d (.messageSending sk c) = .ok .cont) →
      env.complete 1 = .ok resp1 → resp1.toolCalls ≠ [] →
      env.complete 2 = .ok resp2 → resp2.toolCalls = [] → resp2.text = some t2 →
      ∃ res, (runLoop env).result = .ok res ∧ res.iterations = 2 ∧ res.text = t2) := by
  refine ⟨?_, ?_, ?_, ?_⟩
  · intro env d r hd hb
    simp [runLoop, beforeAgentStartBlock, hd, hb]
  · intro env d tc r hd hb
    simp [processToolCall, hd, hb]
  · intro env calls
    simp [execToolCalls]
  · intro env d resp1 resp2 t2 hd hnat hbas hmsg hc1 hne1 hc2 hcalls2 htext2
    have hbasb : beforeAgentStartBlock env = none := by
      simp [beforeAgentStartBlock, hd, hbas]
    have h2 := loopIter_tool_block_continues 24 env d resp1 resp2 t2
      (initialMessages env) 0 0 0 0 0 hd hnat hmsg hc1 hne1 hc2 hcalls2 htext2
      (by simp [MAX_ITERATIONS])
    have hrl : (runLoop env).result =
        .ok ⟨t2, 0 + 1 + 1, 0 + resp1.toolCalls.length,
             ⟨satAdd32 (satAdd32 0 resp1.usage.inputTokens) resp2.usage.inputTokens,
              satAdd32 (satAdd32 0 resp1.usage.outputTokens) resp2.usage.outputTokens⟩⟩ := by
      simp only [runLoop, hbasb]
      exact h2
    exact ⟨_, hrl, rfl, rfl⟩

/-- Hook dispatcher used by the witnesses: blocks agent start. -/
def blockStartDispatch : HookPayload → Except Str HookAction
  | .beforeAgentStart _ _ => .ok (.block (chars "test block"))
  | _ => .ok .cont

/-- Hook dispatcher used by the witnesses: blocks every tool call and
asks to modify every persisted result (which a blocked call must
ignore). -/
def blockToolDispatch : HookPayload → Except Str HookAction
  | .beforeToolCall _ _ _ => .ok (.block (chars "no tools"))
  | .toolResultPersist _ _ _ => .ok (.modifyPayload (.str (chars "REDACTED")))
  | _ => .ok .cont

/-- Environment whose hooks block `BeforeAgentStart`. -/
def envBlockStart : LoopEnv where
  supportsTools := true
  providerId := chars "mock-model"
  complete := fun _ => .ok ⟨some (chars "unreached"), [], ⟨0, 0⟩⟩
  dispatch := some blockStartDispatch
  getTool := fun _ => none
  toolContext := some (.obj [(chars "_session_key", .str (chars "main"))])
  parseJson := fun _ => none
  uuid := fun _ => []
  maxToolResultBytes := 1000
  systemPrompt := chars "sys"
  userMessage := chars "hi"
  history := none

/-- Environment whose hooks block every `BeforeToolCall`. -/
def envBlockTool : LoopEnv where
  supportsTools := true
  providerId := chars "mock-model"
  complete := fun _ => .ok ⟨none, [], ⟨0, 0⟩⟩
  dispatch := some blockToolDispatch
  getTool := fun _ => some (fun a => .ok a)
  toolContext := some (.obj [(chars "_session_key", .str (chars "main"))])
  parseJson := fun _ => none
  uuid := fun _ => []
  maxToolResultBytes := 1000
  systemPrompt := chars "sys"
  userMessage := chars "hi"
  history := none

/-- A concrete tool call used by the witnesses. -/
def witnessToolCall : ToolCall :=
  ⟨chars "call-9", chars "exec", .obj [(chars "command", .str (chars "ls"))]⟩

/-- Environment whose hooks block every tool call while the provider asks
for one tool call and then answers with text. -/
def envBlockToolTwoIter : LoopEnv where
  supportsTools := true
  providerId := chars "mock-model"
  complete := fun n =>
    if n = 1 then .ok ⟨none, [⟨chars "c1", chars "echo_tool", .null⟩], ⟨1, 1⟩⟩
    else .ok ⟨some (chars "Done!"), [], ⟨1, 1⟩⟩
  dispatch := some blockToolDispatch
  getTool := fun _ => some (fun a => .ok a)
  toolContext := some (.obj [(chars "_session_key", .str (chars "main"))])
  parseJson := fun _ => none
  uuid := fun _ => []
  maxToolResultBytes := 1000
  systemPrompt := chars "sys"
  userMessage := chars "hi"
  history := none

theorem hook_block_event_semantics_witness :
    runLoop envBlockStart
      = ⟨.error (.other (chars "agent start blocked by hook: " ++ chars "test block")), [], 0⟩ ∧
    processToolCall envBlockTool witnessToolCall
      = (toolMsg (chars "call-9") (blockedContent (chars "no tools")),
         [.beforeToolCall (chars "main") (chars "exec")
            (.obj [(chars "command", .str (chars "ls"))])]) ∧
    (∃ res, (runLoop envBlockToolTwoIter).result = .ok res ∧
      res.iterations = 2 ∧ res.text = chars "Done!") := by
  refine ⟨?_, ?_, ?_⟩
  · exact hook_block_event_semantics.1 envBlockStart blockStartDispatch (chars "test block")
      rfl rfl
  · exact hook_block_event_semantics.2.1 envBlockTool blockToolDispatch witnessToolCall
      (chars "no tools") rfl rfl
  · exact hook_block_event_semantics.2.2.2 envBlockToolTwoIter blockToolDispatch
      ⟨none, [⟨chars "c1", chars "echo_tool", .null⟩], ⟨1, 1⟩⟩
      ⟨some (chars "Done!"), [], ⟨1, 1⟩⟩ (chars "Done!")
      rfl rfl (fun sk mdl => rfl) (fun sk c => rfl) rfl (by simp) rfl rfl rfl

/-- Claim C10 — a `BeforeToolCall` block substitutes the serialized
object with single field `error` reading `blocked by hook: <reason>`
verbatim: the appended content is exactly that serialization for every
configured `max_tool_result_bytes` (so it is never truncated or
stripped by `sanitize_tool_result`), and no `ToolResultPersist` payload
is dispatched for the call (so persist hooks cannot redact it) — whereas
a call the hook lets through gets its envelope persisted (the
`ToolResultPersist` payload is dispatched) and its content sanitized. -/
theorem blocked_tool_message_bypasses_persist :
    (∀ (env : LoopEnv) (d : HookPayload → Except Str HookAction) (tc : ToolCall) (r : Str),
      env.dispatch = some d →
      d (.beforeToolCall (sessionKeyOf env) tc.name tc.arguments) = .ok (.block r) →
      (processToolCall env tc).1 = toolMsg tc.id (blockedContent r) ∧
      (∀ p ∈ (processToolCall env tc).2, isPersistPayload p = false) ∧
      (∀ m : Nat, (processToolCall { env with maxToolResultBytes := m } tc).1
        = toolMsg tc.id (blockedContent r))) ∧
    (∀ (env : LoopEnv) (d : HookPayload → Except Str HookAction) (tc : ToolCall),
      env.dispatch = some d →
      d (.beforeToolCall (sessionKeyOf env) tc.name tc.arguments) = .ok .cont →
      (processToolCall env tc).1 = toolMsg tc.id
        (sanitize_tool_result
          (jsonSerialize (persistResult env tc (toolEnvelope env tc tc.arguments).1).1)
          env.maxToolResultBytes) ∧
      HookPayload.toolResultPersist (sessionKeyOf env) tc.name
          (toolEnvelope env tc tc.arguments).1 ∈ (processToolCall env tc).2) := by
  constructor
  · intro env d tc r hd hb
    refine ⟨?_, ?_, ?_⟩
    · unfold processToolCall
      rw [hd]
      simp only [hb]
    · unfold processToolCall
      rw [hd]
      simp only [hb]
      intro p hp
      simp only [List.mem_singleton] at hp
      subst hp
      rfl
    · intro m
      unfold processToolCall
      simp only [hd]
      simp only [sessionKeyOf] at hb ⊢
      rw [hb]
  · intro env d tc hd hb
    unfold processToolCall finishToolCall
    simp only [hd, hb]
    refine ⟨trivial, ?_⟩
    simp only [persistResult, hd]
    split <;> simp

theorem blocked_tool_message_bypasses_persist_witness :
    (processToolCall envBlockTool witnessToolCall).1
      = toolMsg (chars "call-9") (blockedContent (chars "no tools")) ∧
    (processToolCall { envBlockTool with maxToolResultBytes := 3 } witnessToolCall).1
      = toolMsg (chars "call-9") (blockedContent (chars "no tools")) ∧
    (∀ p ∈ (processToolCall envBlockTool witnessToolCall).2, isPersistPayload p = false) := by
  have h := blocked_tool_message_bypasses_persist.1 envBlockTool blockToolDispatch
    witnessToolCall (chars "no tools") rfl rfl
  exact ⟨h.1, h.2.2 3, h.2.1⟩

/-- Claim C3 — text-embedded tool-call rescue: when the fenced block is
present and its trimmed interior parses to a value with a string `tool`
field, the parser returns exactly one call whose id is `text-` followed
by the UUID, whose arguments default to the empty object when absent,
and the remaining text outside the fence (both sides trimmed; `none`
when both are empty, joined by a single newline when both are
non-empty); the loop's rescue step installs that single call and the
remainder on a non-native, call-free response, and leaves the response
unchanged whenever the parse fails (no fence, unparsable interior, or no
string `tool` field). -/
theorem text_tool_call_rescue_spec :
    (∀ (pj : Str → Option Json) (u text : Str) (s e : Nat) (v : Json) (name : Str),
      findSub text (chars "```tool_call") = some s →
      findSub (text.drop (s + 12)) (chars "```") = some e →
      pj (rustTrim ((text.drop (s + 12)).take e)) = some v →
      getField v (chars "tool") = some (.str name) →
      parse_tool_call_from_text pj u text =
        some (⟨chars "text-" ++ u, name, (getField v (chars "arguments")).getD (.obj [])⟩,
          if rustTrim (text.take s) = [] ∧ rustTrim (text.drop (s + 12 + e + 3)) = [] then none
          else if rustTrim (text.take s) = [] then some (rustTrim (text.drop (s + 12 + e + 3)))
          else if rustTrim (text.drop (s + 12 + e + 3)) = [] then some (rustTrim (text.take s))
          else some (rustTrim (text.take s) ++ '\n' :: rustTrim (text.drop (s + 12 + e + 3))))) ∧
    (∀ (pj : Str → Option Json) (u text : Str),
      findSub text (chars "```tool_call") = none →
      parse_tool_call_from_text pj u text = none) ∧
    (∀ (pj : Str → Option Json) (u text : Str) (s e : Nat),
      findSub text (chars "```tool_call") = some s →
      findSub (text.drop (s + 12)) (chars "```") = some e →
      pj (rustTrim ((text.drop (s + 12)).take e)) = none →
      parse_tool_call_from_text pj u text = none) ∧
    (∀ (pj : Str → Option Json) (u text : Str) (s e : Nat) (v : Json),
      findSub text (chars "```tool_call") = some s →
      findSub (text.drop (s + 12)) (chars "```") = some e →
      pj (rustTrim ((text.drop (s + 12)).take e)) = some v →
      (∀ name, getField v (chars "tool") ≠ some (.str name)) →
      parse_tool_call_from_text pj u text = none) ∧
    (∀ (env : LoopEnv) (it : Nat) (resp : CompletionResponse) (t : Str)
        (tc : ToolCall) (remaining : Option Str),
      env.supportsTools = false → resp.toolCalls = [] → resp.text = some t →
      parse_tool_call_from_text env.parseJson (env.uuid it) t = some (tc, remaining) →
      rescueTextToolCall env it resp = { resp with text := remaining, toolCalls := [tc] }) ∧
    (∀ (env : LoopEnv) (it : Nat) (resp : CompletionResponse) (t : Str),
      env.supportsTools = false → resp.toolCalls = [] → resp.text = some t →
      parse_tool_call_from_text env.parseJson (env.uuid it) t = none →
      rescueTextToolCall env it resp = resp) := by
  refine ⟨?_, ?_, ?_, ?_, ?_, ?_⟩
  · intro pj u text s e v name h1 h2 h3 h4
    simp [parse_tool_call_from_text, h1, h2, h3, h4]
  · intro pj u text h1
    simp [parse_tool_call_from_text, h1]
  · intro pj u text s e h1 h2 h3
    simp [parse_tool_call_from_text, h1, h2, h3]
  · intro pj u text s e v h1 h2 h3 h4
    cases hg : getField v (chars "tool") with
    | none => simp [parse_tool_call_from_text, h1, h2, h3, hg]
    | some w =>
      cases w with
      | str nm => exact absurd hg (h4 nm)
      | null => simp [parse_tool_call_from_text, h1, h2, h3, hg]
      | bool b => simp [parse_tool_call_from_text, h1, h2, h3, hg]
      | num n => simp [parse_tool_call_from_text, h1, h2, h3, hg]
      | arr xs => simp [parse_tool_call_from_text, h1, h2, h3, hg]
      | obj fs => simp [parse_tool_call_from_text, h1, h2, h3, hg]
  · intro env it resp t tc remaining hnat hcalls htext hparse
    cases resp with
    | mk rt rc ru =>
      simp only at hcalls htext
      subst hcalls
      subst htext
      simp [rescueTextToolCall, hnat, hparse]
  · intro env it resp t hnat hcalls htext hparse
    cases resp with
    | mk rt rc ru =>
      simp only at hcalls htext
      subst hcalls
      subst htext
      simp [rescueTextToolCall, hnat, hparse]

/-- Parser stub used by the C3 witness, standing in for
`serde_json::from_str` on the one interior the witness uses. -/
def witnessParseJson : Str → Option Json := fun s =>
  if s = chars "\x7b\"tool\": \"exec\", \"arguments\": \x7b\"command\": \"ls\"\x7d\x7d" then
    some (.obj [(chars "tool", .str (chars "exec")),
                (chars "arguments", .obj [(chars "command", .str (chars "ls"))])])
  else none

/-- Fenced text used by the C3 witness. -/
def witnessFencedText : Str :=
  chars "I will list files.\n```tool_call\n\x7b\"tool\": \"exec\", \"arguments\": \x7b\"command\": \"ls\"\x7d\x7d\n```"

theorem text_tool_call_rescue_spec_witness :
    parse_tool_call_from_text witnessParseJson (chars "1234") witnessFencedText =
      some (⟨chars "text-" ++ chars "1234", chars "exec",
             (getField (.obj [(chars "tool", .str (chars "exec")),
                (chars "arguments", .obj [(chars "command", .str (chars "ls"))])])
               (chars "arguments")).getD (.obj [])⟩,
        some (rustTrim (witnessFencedText.take 19))) ∧
    parse_tool_call_from_text witnessParseJson (chars "1234") (chars "no fence here") = none := by
  constructor
  · have h := text_tool_call_rescue_spec.1 witnessParseJson (chars "1234")
      witnessFencedText 19 50
      (.obj [(chars "tool", .str (chars "exec")),
             (chars "arguments", .obj [(chars "command", .str (chars "ls"))])])
      (chars "exec") (by decide) (by decide) rfl rfl
    rw [h]
    norm_num [show rustTrim (witnessFencedText.take 19) ≠ [] from by decide,
      show rustTrim (witnessFencedText.drop (19 + 12 + 50 + 3)) = [] from by decide]
  · exact text_tool_call_rescue_spec.2.1 witnessParseJson (chars "1234")
      (chars "no fence here") rfl

theorem loopIter_cwe_classifier (fuel : Nat) :
    ∀ (env : LoopEnv) (ms : List Json) (it ttc a b pc : Nat) (m : Str),
      (loopIter env fuel ms it ttc a b pc).result = .error (.contextWindowExceeded m) →
      is_context_window_error m = true := by
  induction fuel with
  | zero =>
    intro env ms it ttc a b pc m h
    simp [loopIter] at h
  | succ fuel ih =>
    intro env ms it ttc a b pc m h
    simp only [loopIter] at h
    split at h
    · simp at h
    · split at h
      · simp at h
      · split at h
        · rename_i e heq
          split at h
          · rename_i hcls
            simp only [Except.error.injEq, AgentRunError.contextWindowExceeded.injEq] at h
            exact h ▸ hcls
          · simp at h
        · split at h
          · simp at h
          · exact ih _ _ _ _ _ _ _ _ h

theorem runLoop_first_call_error (env : LoopEnv) (m : Str)
    (hd : env.dispatch = none) (hc : env.complete 1 = .error m) :
    (runLoop env).result =
      .error (if is_context_window_error m then .contextWindowExceeded m
              else .other m) := by
  have hbas : beforeAgentStartBlock env = none := by
    simp [beforeAgentStartBlock, hd]
  have hmsb : ∀ ms, messageSendingBlock env ms = none := by
    intro ms
    simp [messageSendingBlock, hd]
  simp only [runLoop, hbas]
  show (loopIter env (MAX_ITERATIONS + 1) _ 0 0 0 0 0).result = _
  simp only [MAX_ITERATIONS, loopIter, hmsb]
  norm_num [hc]

/-- Claim C4 — the context-window classifier returns true exactly when
the lowercased message contains one of the eleven patterns, every
`ContextWindowExceeded` the loop returns passed the classifier, and a
failing `provider.complete` call surfaces as `ContextWindowExceeded`
when the classifier matches its message and as `Other` otherwise. -/
theorem context_window_classifier_spec :
    (∀ msg : Str,
      is_context_window_error msg = true ↔
        ∃ p ∈ CONTEXT_WINDOW_PATTERNS ++ [chars "status 413", chars "http 413"],
          hasSub (lowercase msg) p = true) ∧
    (∀ (env : LoopEnv) (m : Str),
      (runLoop env).result = .error (.contextWindowExceeded m) →
      is_context_window_error m = true) ∧
    (∀ (env : LoopEnv) (m : Str), env.dispatch = none → env.complete 1 = .error m →
      (runLoop env).result =
        .error (if is_context_window_error m then .contextWindowExceeded m
                else .other m)) := by
  refine ⟨?_, ?_, ?_⟩
  · intro msg
    simp only [is_context_window_error, Bool.or_eq_true, List.any_eq_true]
    constructor
    · rintro ((⟨p, hp, hs⟩ | h1) | h2)
      · exact ⟨p, by simp [hp], hs⟩
      · exact ⟨chars "status 413", by simp, h1⟩
      · exact ⟨chars "http 413", by simp, h2⟩
    · rintro ⟨p, hp, hs⟩
      simp only [List.mem_append, List.mem_cons, List.not_mem_nil, or_false] at hp
      rcases hp with hp | hp | hp
      · exact Or.inl (Or.inl ⟨p, hp, hs⟩)
      · exact Or.inl (Or.inr (hp ▸ hs))
      · exact Or.inr (hp ▸ hs)
  · intro env m h
    unfold runLoop at h
    split at h
    · simp at h
    · exact loopIter_cwe_classifier _ _ _ _ _ _ _ _ _ h
  · exact fun env m hd hc => runLoop_first_call_error env m hd hc

/-- Concrete environment whose provider fails its first call with a
context-window message. -/
def envCtxWindowErr : LoopEnv where
  supportsTools := true
  providerId := chars "mock-model"
  complete := fun _ => .error (chars "context_length_exceeded: too long")
  dispatch := none
  getTool := fun _ => none
  toolContext := none
  parseJson := fun _ => none
  uuid := fun _ => []
  maxToolResultBytes := 1000
  systemPrompt := chars "sys"
  userMessage := chars "hi"
  history := none

/-- Concrete environment whose provider fails its first call with an
unrelated message. -/
def envOtherErr : LoopEnv where
  supportsTools := true
  providerId := chars "mock-model"
  complete := fun _ => .error (chars "internal server error")
  dispatch := none
  getTool := fun _ => none
  toolContext := none
  parseJson := fun _ => none
  uuid := fun _ => []
  maxToolResultBytes := 1000
  systemPrompt := chars "sys"
  userMessage := chars "hi"
  history := none

theorem context_window_classifier_spec_witness :
    is_context_window_error (chars "HTTP 413 Payload Too Large") = true ∧
    (runLoop envCtxWindowErr).result =
      .error (.contextWindowExceeded (chars "context_length_exceeded: too long")) ∧
    (runLoop envOtherErr).result = .error (.other (chars "internal server error")) := by
  refine ⟨?_, ?_, ?_⟩
  · exact (context_window_classifier_spec.1 (chars "HTTP 413 Payload Too Large")).mpr
      ⟨chars "http 413", by simp, by decide⟩
  · have h := context_window_classifier_spec.2.2 envCtxWindowErr
      (chars "context_length_exceeded: too long") rfl rfl
    rw [h, show is_context_window_error (chars "context_length_exceeded: too long") = true
      from by decide]
    rfl
  · have h := context_window_classifier_spec.2.2 envOtherErr
      (chars "internal server error") rfl rfl
    rw [h, show is_context_window_error (chars "internal server error") = false
      from by decide]
    rfl

theorem utf8Len_append (a b : Str) : utf8Len (a ++ b) = utf8Len a + utf8Len b := by
  simp [utf8Len]

theorem utf8Len_cons (c : Char) (l : Str) :
    utf8Len (c :: l) = charSize c + utf8Len l := by
  simp [utf8Len]

theorem takeBytes_eq_take (s : Str) : ∀ b : Nat, ∃ k, takeBytes s b = s.take k := by
  induction s with
  | nil => exact fun b => ⟨0, rfl⟩
  | cons c cs ih =>
    intro b
    unfold takeBytes
    split
    · obtain ⟨k, hk⟩ := ih (b - charSize c)
      exact ⟨k + 1, by simp [hk]⟩
    · exact ⟨0, rfl⟩

theorem utf8Len_takeBytes_le (s : Str) : ∀ b : Nat, utf8Len (takeBytes s b) ≤ b := by
  induction s with
  | nil => intro b; simp [takeBytes, utf8Len]
  | cons c cs ih =>
    intro b
    unfold takeBytes
    split
    · rename_i hle
      rw [utf8Len_cons]
      have := ih (b - charSize c)
      omega
    · simp [utf8Len]

theorem findB_le (s : Str) : ∀ m : Nat, findB s m ≤ m := by
  intro m
  induction m with
  | zero => simp [findB]
  | succ m ih =>
    unfold findB
    split
    · exact le_refl _
    · exact le_trans ih (Nat.le_succ m)

theorem one_le_charSize (c : Char) : 1 ≤ charSize c := by
  unfold charSize
  split
  · omega
  · split
    · omega
    · split <;> omega

theorem isBoundaryB_zero (r : Str) : isBoundaryB r 0 = true := by
  unfold isBoundaryB
  simp

theorem isBoundaryB_cons_ne_zero (c : Char) (cs : Str) (i : Nat) (h0 : ¬ i = 0) :
    isBoundaryB (c :: cs) i
      = if charSize c ≤ i then isBoundaryB cs (i - charSize c) else false := by
  conv_lhs => unfold isBoundaryB
  rw [if_neg h0]

theorem isBoundaryB_utf8Len_take (r : Str) :
    ∀ k, isBoundaryB r (utf8Len (r.take k)) = true := by
  induction r with
  | nil =>
    intro k
    simp [utf8Len, isBoundaryB_zero]
  | cons c cs ih =>
    intro k
    cases k with
    | zero => simp [utf8Len, isBoundaryB_zero]
    | succ k =>
      rw [List.take_succ_cons, utf8Len_cons]
      by_cases h0 : charSize c + utf8Len (cs.take k) = 0
      · rw [h0]
        exact isBoundaryB_zero _
      · rw [isBoundaryB_cons_ne_zero _ _ _ h0,
          if_pos (by omega : charSize c ≤ charSize c + utf8Len (cs.take k)),
          Nat.add_sub_cancel_left]
        exact ih k

theorem findB_isBoundary (r : Str) : ∀ m, isBoundaryB r (findB r m) = true := by
  intro m
  induction m with
  | zero =>
    rw [show findB r 0 = 0 from rfl]
    exact isBoundaryB_zero r
  | succ m ih =>
    unfold findB
    split
    · assumption
    · exact ih

theorem le_findB_of_isBoundary (r : Str) :
    ∀ (m i : Nat), isBoundaryB r i = true → i ≤ m → i ≤ findB r m := by
  intro m
  induction m with
  | zero => intro i _ h; simpa [findB] using h
  | succ m ih =>
    intro i hb hle
    unfold findB
    split
    · exact hle
    · rename_i hnb
      rcases Nat.lt_or_ge i (m + 1) with hlt | hge
      · exact ih i hb (by omega)
      · exact absurd hb (by rw [show i = m + 1 by omega] at hb ⊢; simp [hnb] at hb ⊢)

theorem utf8Len_takeBytes_of_boundary (r : Str) :
    ∀ e, isBoundaryB r e = true → utf8Len (takeBytes r e) = e := by
  induction r with
  | nil =>
    intro e h
    unfold isBoundaryB at h
    split at h
    · rename_i h0
      simp [h0, takeBytes, utf8Len]
    · simp at h
  | cons c cs ih =>
    intro e h
    by_cases h0 : e = 0
    · subst h0
      have hc := one_le_charSize c
      rw [show takeBytes (c :: cs) 0 = [] from by unfold takeBytes; rw [if_neg (by omega)]]
      simp [utf8Len]
    · rw [isBoundaryB_cons_ne_zero _ _ _ h0] at h
      by_cases hle : charSize c ≤ e
      · rw [if_pos hle] at h
        unfold takeBytes
        rw [if_pos hle, utf8Len_cons, ih _ h]
        omega
      · rw [if_neg hle] at h
        simp at h

/-- Claim C6 — `sanitize_tool_result` never splits a codepoint and never
exceeds `max_bytes` plus the truncation marker: writing `r` for the
stripped intermediate result, the output is either a character-level
prefix of `r` (the no-truncation case, where it is all of `r` and fits in
`max_bytes`), or such a prefix of byte length at most `max_bytes`
followed by the truncation marker; in both cases the byte length is at
most `max_bytes` plus the marker's byte length.  Moreover the kept prefix
is the longest character prefix fitting in `max_bytes` (the boundary scan
only moves left to the previous codepoint boundary): its byte length is
the boundary the scan found, and no character prefix of byte length at
most `max_bytes` is longer.  In this model strings are character lists,
so every result is valid UTF-8 by construction and a character-level
prefix contains no partial codepoint. -/
theorem sanitize_tool_result_utf8_bound :
    ∀ (s : Str) (m : Nat),
      utf8Len (sanitize_tool_result s m)
        ≤ m + utf8Len (truncMarker (utf8Len (strip_hex_blobs (strip_base64_blobs s)))) ∧
      (∃ k,
        sanitize_tool_result s m = (strip_hex_blobs (strip_base64_blobs s)).take k ∨
        (sanitize_tool_result s m =
            (strip_hex_blobs (strip_base64_blobs s)).take k
              ++ truncMarker (utf8Len (strip_hex_blobs (strip_base64_blobs s))) ∧
          utf8Len ((strip_hex_blobs (strip_base64_blobs s)).take k) ≤ m)) ∧
      (m < utf8Len (strip_hex_blobs (strip_base64_blobs s)) →
        utf8Len (takeBytes (strip_hex_blobs (strip_base64_blobs s))
            (findB (strip_hex_blobs (strip_base64_blobs s)) m))
          = findB (strip_hex_blobs (strip_base64_blobs s)) m ∧
        ∀ k, utf8Len ((strip_hex_blobs (strip_base64_blobs s)).take k) ≤ m →
          utf8Len ((strip_hex_blobs (strip_base64_blobs s)).take k)
            ≤ findB (strip_hex_blobs (strip_base64_blobs s)) m) := by
  intro s m
  refine ⟨?_, ?_, ?_⟩
  · simp only [sanitize_tool_result]
    by_cases h : m < utf8Len (strip_hex_blobs (strip_base64_blobs s))
    · simp only [if_pos h]
      have h1 : utf8Len (takeBytes (strip_hex_blobs (strip_base64_blobs s))
          (findB (strip_hex_blobs (strip_base64_blobs s)) m)) ≤ m :=
        le_trans (utf8Len_takeBytes_le _ _) (findB_le _ m)
      rw [utf8Len_append]
      omega
    · simp only [if_neg h]
      omega
  · simp only [sanitize_tool_result]
    by_cases h : m < utf8Len (strip_hex_blobs (strip_base64_blobs s))
    · simp only [if_pos h]
      obtain ⟨k, hk⟩ :=
        takeBytes_eq_take (strip_hex_blobs (strip_base64_blobs s))
          (findB (strip_hex_blobs (strip_base64_blobs s)) m)
      have h1 : utf8Len (takeBytes (strip_hex_blobs (strip_base64_blobs s))
          (findB (strip_hex_blobs (strip_base64_blobs s)) m)) ≤ m :=
        le_trans (utf8Len_takeBytes_le _ _) (findB_le _ m)
      exact ⟨k, Or.inr ⟨by rw [hk], by rw [← hk]; exact h1⟩⟩
    · simp only [if_neg h]
      exact ⟨(strip_hex_blobs (strip_base64_blobs s)).length, Or.inl (by simp)⟩
  · intro _
    refine ⟨utf8Len_takeBytes_of_boundary _ _ (findB_isBoundary _ m), ?_⟩
    intro k hk
    exact le_findB_of_isBoundary _ m _ (isBoundaryB_utf8Len_take _ k) hk

theorem sanitize_tool_result_utf8_bound_witness :
    utf8Len (sanitize_tool_result (chars "ééé") 3)
      ≤ 3 + utf8Len (truncMarker (utf8Len (strip_hex_blobs (strip_base64_blobs (chars "ééé"))))) ∧
    utf8Len (takeBytes (strip_hex_blobs (strip_base64_blobs (chars "ééé")))
        (findB (strip_hex_blobs (strip_base64_blobs (chars "ééé"))) 3))
      = findB (strip_hex_blobs (strip_base64_blobs (chars "ééé"))) 3 ∧
    utf8Len ((strip_hex_blobs (strip_base64_blobs (chars "ééé"))).take 1)
      ≤ findB (strip_hex_blobs (strip_base64_blobs (chars "ééé"))) 3 := by
  have h := sanitize_tool_result_utf8_bound (chars "ééé") 3
  have hm := h.2.2 (by decide)
  exact ⟨h.1, hm.1, hm.2 1 (by decide)⟩

theorem stripB64Go_id : ∀ (fuel : Nat) (s : Str), s.length ≤ fuel →
    b64ShortGo fuel s = true → stripB64Go fuel s = s := by
  intro fuel
  induction fuel with
  | zero => intro s _ _; rfl
  | succ fuel ih =>
    intro s hlen h
    simp only [stripB64Go, b64ShortGo] at h ⊢
    cases hf : findSub s BASE64_TAG with
    | none => simp [hf]
    | some start =>
      simp only [hf] at h ⊢
      have hbound := findSub_some_le hf
      have h5 : BASE64_TAG.length = 5 := rfl
      rw [h5] at hbound
      have hlen' : (s.drop (start + 5)).length ≤ fuel := by
        simp only [List.length_drop]
        omega
      have hd := findSub_some_decomp hf
      rw [h5] at hd
      cases hm : findSub (s.drop (start + 5)) (chars ";base64,") with
      | none =>
        simp only [hm] at h ⊢
        rw [ih _ hlen' h]
        exact hd.symm
      | some mpos =>
        simp only [hm, Bool.and_eq_true, decide_eq_true_eq] at h ⊢
        split
        · rename_i hge
          have := h.1
          omega
        · rw [ih _ hlen' h.2]
          exact hd.symm

theorem length_dropWhile_le (p : Char → Bool) (l : Str) :
    (l.dropWhile p).length ≤ l.length := by
  induction l with
  | nil => simp
  | cons c cs ih =>
    simp only [List.dropWhile_cons]
    split
    · simp only [List.length_cons]
      omega
    · simp

theorem stripHexGo_id : ∀ (fuel : Nat) (s : Str), s.length ≤ fuel →
    hexRunsShortGo fuel s = true → stripHexGo fuel s = s := by
  intro fuel
  induction fuel with
  | zero => intro s _ _; rfl
  | succ fuel ih =>
    intro s hlen h
    cases s with
    | nil => rfl
    | cons c cs =>
      simp only [stripHexGo, hexRunsShortGo] at h ⊢
      by_cases hc : isHexDigitChar c = true
      · simp only [if_pos hc, Bool.and_eq_true, decide_eq_true_eq] at h ⊢
        have hrest : ((c :: cs).dropWhile isHexDigitChar).length ≤ fuel := by
          have h1 : ((c :: cs).dropWhile isHexDigitChar).length ≤ cs.length := by
            simp only [List.dropWhile_cons, if_pos hc]
            exact length_dropWhile_le _ _
          simp only [List.length_cons] at hlen
          omega
        rw [if_neg (by omega), ih _ hrest h.2]
        exact List.takeWhile_append_dropWhile _ _
      · simp only [if_neg hc] at h ⊢
        rw [ih _ (by simp only [List.length_cons] at hlen; omega) h]

/-- Claim C7 (amended) — the sanitizer is idempotent on every input the
strip phase leaves unchanged (no base64 data-URI payload of 200+
characters, no hex run of 200+ digits) whose byte length fits within
`max_bytes`, so that no truncation occurs. -/
theorem sanitize_idempotent_without_truncation :
    ∀ (s : Str) (m : Nat), b64Short s = true → hexRunsShort s = true →
      utf8Len s ≤ m →
      sanitize_tool_result (sanitize_tool_result s m) m = sanitize_tool_result s m := by
  intro s m hb hh hm
  have h1 : strip_base64_blobs s = s := stripB64Go_id s.length s le_rfl hb
  have h2 : strip_hex_blobs s = s := stripHexGo_id s.length s le_rfl hh
  have hs : sanitize_tool_result s m = s := by
    simp only [sanitize_tool_result, h1, h2]
    rw [if_neg (by omega)]
  rw [hs]
  exact hs

theorem sanitize_idempotent_without_truncation_witness :
    sanitize_tool_result (sanitize_tool_result (chars "hello world") 50) 50
      = sanitize_tool_result (chars "hello world") 50 :=
  sanitize_idempotent_without_truncation (chars "hello world") 50
    (by decide) (by decide) (by decide)

/-- Claim C7 counterexample — idempotence fails as soon as truncation
occurs, even for inputs containing none of the marker strings: truncating
`xxxxxxx` to 5 bytes appends a marker that itself exceeds the limit, so
the second pass truncates again and records a different original length
(`36 bytes total` instead of `7 bytes total`). -/
theorem sanitize_idempotence_counterexample :
    (hasSub (chars "xxxxxxx") (chars "[truncated — ") = false ∧
     hasSub (chars "xxxxxxx") (chars "[base64 data removed — ") = false ∧
     hasSub (chars "xxxxxxx") (chars "[hex data removed — ") = false) ∧
    sanitize_tool_result (sanitize_tool_result (chars "xxxxxxx") 5) 5
      ≠ sanitize_tool_result (chars "xxxxxxx") 5 := by
  decide

/-- Claim C8 — the sandbox decision honours a per-session override when
one is set (the override wins over every mode, and survives overrides for
other sessions), and otherwise derives the decision from the global mode:
`Off → false`, `All → true`, `NonMain → key != "main"`. -/
theorem sandbox_override_priority :
    ∀ (st : RouterState) (k : Str) (v : Bool),
      is_sandboxed (set_override st k v) k = v ∧
      is_sandboxed (remove_override st k) k = modeDefault st.mode k ∧
      (st.overrides k = none → is_sandboxed st k = modeDefault st.mode k) ∧
      (∀ (k' : Str) (v' : Bool), k' ≠ k →
        is_sandboxed (set_override (set_override st k v) k' v') k = v ∧
        is_sandboxed (remove_override (set_override st k v) k') k = v) := by
  intro st k v
  refine ⟨?_, ?_, ?_, ?_⟩
  · simp [is_sandboxed, set_override]
  · simp [is_sandboxed, remove_override]
  · intro h
    simp [is_sandboxed, h]
  · intro k' v' h
    have hkk : ¬(k = k') := fun hh => h hh.symm
    constructor <;> simp [is_sandboxed, set_override, remove_override, hkk]

theorem sandbox_override_priority_witness :
    is_sandboxed (set_override ⟨.off, fun _ => none⟩ (chars "s1") true) (chars "s1") = true ∧
    is_sandboxed (remove_override ⟨.nonMain, fun _ => none⟩ (chars "main")) (chars "main")
      = modeDefault .nonMain (chars "main") ∧
    is_sandboxed ⟨SandboxMode.all, fun _ => none⟩ (chars "s1")
      = modeDefault SandboxMode.all (chars "s1") ∧
    is_sandboxed
      (set_override (set_override ⟨.off, fun _ => none⟩ (chars "s1") true) (chars "s2") false)
      (chars "s1") = true := by
  refine ⟨(sandbox_override_priority ⟨.off, fun _ => none⟩ (chars "s1") true).1,
    (sandbox_override_priority ⟨.nonMain, fun _ => none⟩ (chars "main") false).2.1,
    (sandbox_override_priority ⟨SandboxMode.all, fun _ => none⟩ (chars "s1") false).2.2.1 rfl,
    ((sandbox_override_priority ⟨.off, fun _ => none⟩ (chars "s1") true).2.2.2
      (chars "s2") false (by decide)).1⟩

end Moltis
